import Mathlib

/-!
# ZeroThreeEngine maths: `Vector2`, `Vector3` and `Quaternion`

Shallow embedding of `src/modules/maths/vector.h` and of the class declared in
`src/ZeroThreeEngine/core/maths/quaternion.h`.

The C++ component type `float` is kept abstract as a scalar type `α`.  Every
definition only asks `α` for the operations the source line uses (`+`, `-`,
`*`; an ordered field with a floor function for the `(int)` conversion), and
every theorem states the algebraic laws of `α` it relies on, so the results
read as: "in any arithmetic with these laws".  Two instances are used: `ℚ`,
exact arithmetic, and `F32`, a model of IEEE-754 binary32 with rounding,
overflow, infinities and NaN, on which the statements that exact arithmetic
cannot decide are settled.  The built-in `int` is the 32-bit two's complement
integer, with the undefined cases of its conversion and remainder made
explicit (`none`).

Member functions that are `const` (or that never write a field) are functions
of the receiver's value.  Compound assignment operators taking a
`const Vector &` are modelled on an object memory (address ↦ value), one
field write per source statement, because the argument may alias the receiver.
Compound assignments taking a `float` by value are modelled on the receiver
alone.  The functions of `<math.h>` (`sqrt`) are parameters of the members
that call them.
-/

namespace ZeroThree

variable {α : Type}

/-! ## The `int` conversions used by the scalar modulus -/

/-- Least value of the 32-bit `int`. -/
def INT_MIN : Int := -2147483648

/-- Greatest value of the 32-bit `int`. -/
def INT_MAX : Int := 2147483647

/-- The conversion `(int)x` of a `float`: the fractional part is discarded
(truncation toward zero).  The behaviour is undefined, `none`, when the
truncated value is not representable in `int`. -/
def castInt [LinearOrderedField α] [FloorRing α] (x : α) : Option Int :=
  let t : Int := if 0 ≤ x then ⌊x⌋ else ⌈x⌉
  if INT_MIN ≤ t ∧ t ≤ INT_MAX then some t else none

/-- The built-in `a % b` on `int`: the remainder of the division truncated
toward zero.  The behaviour is undefined, `none`, when `b` is zero and when the
quotient `a / b` is not representable (`INT_MIN % -1`). -/
def intMod (a b : Int) : Option Int :=
  if b = 0 then none
  else if a = INT_MIN ∧ b = -1 then none
  else some (Int.tmod a b)

/-! ## Vector2 -/

/-- The class `Vector2` of `vector.h`: fields `float x; float y;`. -/
@[ext]
structure Vector2 (α : Type) where
  x : α
  y : α
deriving DecidableEq

namespace Vector2

/-- The member `Vector2 operator+(const Vector2 &v) const`. -/
def opAdd [Add α] (self v : Vector2 α) : Vector2 α :=
  ⟨self.x + v.x, self.y + v.y⟩

/-- The member `Vector2 operator-(const Vector2 &v) const`. -/
def opSub [Sub α] (self v : Vector2 α) : Vector2 α :=
  ⟨self.x - v.x, self.y - v.y⟩

/-- The member `void operator+=(const Vector2 &v)`: `x += v.x; y += v.y;`
run on the memory `m`, with the receiver at address `self` and the argument at
address `v`. -/
def opAddAssign [Add α] (m : Nat → Vector2 α) (self v : Nat) : Nat → Vector2 α :=
  let m1 := Function.update m self { m self with x := (m self).x + (m v).x }
  Function.update m1 self { m1 self with y := (m1 self).y + (m1 v).y }

/-- The member `void operator-=(const Vector2 &v)`: `x -= v.x; y -= v.y;`
run on the memory `m`. -/
def opSubAssign [Sub α] (m : Nat → Vector2 α) (self v : Nat) : Nat → Vector2 α :=
  let m1 := Function.update m self { m self with x := (m self).x - (m v).x }
  Function.update m1 self { m1 self with y := (m1 self).y - (m1 v).y }

/-- A call of `operator+` on two stored objects: the new memory and the
returned temporary.  The member and its argument are `const`, nothing is
written. -/
def callOpAdd [Add α] (m : Nat → Vector2 α) (self v : Nat) :
    (Nat → Vector2 α) × Vector2 α :=
  (m, (m self).opAdd (m v))

/-- A call of `operator-` on two stored objects: the new memory and the
returned temporary. -/
def callOpSub [Sub α] (m : Nat → Vector2 α) (self v : Nat) :
    (Nat → Vector2 α) × Vector2 α :=
  (m, (m self).opSub (m v))

/-- The member `void operator*=(const float v)`: `x *= v; y *= v;`. -/
def opMulAssign [Mul α] (self : Vector2 α) (v : α) : Vector2 α :=
  let s1 := { self with x := self.x * v }
  { s1 with y := s1.y * v }

/-- The member `Vector2 operator*(const float v)`. -/
def opMul [Mul α] (self : Vector2 α) (v : α) : Vector2 α :=
  ⟨self.x * v, self.y * v⟩

/-- The member `void operator%=(const float v)`: the source body is
`x *= v; y *= v;`. -/
def opModAssign [Mul α] (self : Vector2 α) (v : α) : Vector2 α :=
  let s1 := { self with x := self.x * v }
  { s1 with y := s1.y * v }

/-- The member `Vector2 operator%(const float v)`:
`Vector2((int)x % (int)v, (int)y % (int)y)`.  The `int` results are converted
back to `float` by the constructor.  `none` when an operand conversion or a
remainder has undefined behaviour. -/
def opMod [LinearOrderedField α] [FloorRing α] (self : Vector2 α) (v : α) :
    Option (Vector2 α) := do
  let xi ← castInt self.x
  let vi ← castInt v
  let rx ← intMod xi vi
  let yi ← castInt self.y
  let ry ← intMod yi yi
  pure ⟨(rx : α), (ry : α)⟩

/-- The member `float operator*(const Vector2 &v) const`. -/
def opDot [Add α] [Mul α] (self v : Vector2 α) : α :=
  self.x * v.x + self.y * v.y

/-- The member `float dot(const Vector2 &v) const`. -/
def dot [Add α] [Mul α] (self v : Vector2 α) : α :=
  self.x * v.x + self.y * v.y

end Vector2

/-! ## Vector3 -/

/-- The class `Vector3` of `vector.h`: fields `float x; float y; float z;`. -/
@[ext]
structure Vector3 (α : Type) where
  x : α
  y : α
  z : α
deriving DecidableEq

namespace Vector3

/-- The member `Vector3 operator+(const Vector3 &v) const`. -/
def opAdd [Add α] (self v : Vector3 α) : Vector3 α :=
  ⟨self.x + v.x, self.y + v.y, self.z + v.z⟩

/-- The member `Vector3 operator-(const Vector3 &v) const`. -/
def opSub [Sub α] (self v : Vector3 α) : Vector3 α :=
  ⟨self.x - v.x, self.y - v.y, self.z - v.z⟩

/-- The member `void operator+=(const Vector3 &v)`:
`x += v.x; y += v.y; z += v.z;` run on the memory `m`, with the receiver at
address `self` and the argument at address `v`. -/
def opAddAssign [Add α] (m : Nat → Vector3 α) (self v : Nat) : Nat → Vector3 α :=
  let m1 := Function.update m self { m self with x := (m self).x + (m v).x }
  let m2 := Function.update m1 self { m1 self with y := (m1 self).y + (m1 v).y }
  Function.update m2 self { m2 self with z := (m2 self).z + (m2 v).z }

/-- The member `void operator-=(const Vector3 &v)`:
`x -= v.x; y -= v.y; z -= v.z;` run on the memory `m`. -/
def opSubAssign [Sub α] (m : Nat → Vector3 α) (self v : Nat) : Nat → Vector3 α :=
  let m1 := Function.update m self { m self with x := (m self).x - (m v).x }
  let m2 := Function.update m1 self { m1 self with y := (m1 self).y - (m1 v).y }
  Function.update m2 self { m2 self with z := (m2 self).z - (m2 v).z }

/-- A call of `operator+` on two stored objects: the new memory and the
returned temporary.  The member and its argument are `const`, nothing is
written. -/
def callOpAdd [Add α] (m : Nat → Vector3 α) (self v : Nat) :
    (Nat → Vector3 α) × Vector3 α :=
  (m, (m self).opAdd (m v))

/-- A call of `operator-` on two stored objects: the new memory and the
returned temporary. -/
def callOpSub [Sub α] (m : Nat → Vector3 α) (self v : Nat) :
    (Nat → Vector3 α) × Vector3 α :=
  (m, (m self).opSub (m v))

/-- The member `void operator*=(const float v)`: `x *= v; y *= v; z *= v;`. -/
def opMulAssign [Mul α] (self : Vector3 α) (v : α) : Vector3 α :=
  let s1 := { self with x := self.x * v }
  let s2 := { s1 with y := s1.y * v }
  { s2 with z := s2.z * v }

/-- The member `Vector3 operator*(const float v)`. -/
def opMul [Mul α] (self : Vector3 α) (v : α) : Vector3 α :=
  ⟨self.x * v, self.y * v, self.z * v⟩

/-- The member `void operator%=(const float v)`: the source body is
`x *= v; y *= v; z *= v;`. -/
def opModAssign [Mul α] (self : Vector3 α) (v : α) : Vector3 α :=
  let s1 := { self with x := self.x * v }
  let s2 := { s1 with y := s1.y * v }
  { s2 with z := s2.z * v }

/-- The member `Vector3 operator%(const float v)`:
`Vector3((int)x % (int)v, (int)y % (int)v, (int)z % (int)v)`.  The `int`
results are converted back to `float` by the constructor.  `none` when an
operand conversion or a remainder has undefined behaviour. -/
def opMod [LinearOrderedField α] [FloorRing α] (self : Vector3 α) (v : α) :
    Option (Vector3 α) := do
  let vi ← castInt v
  let xi ← castInt self.x
  let rx ← intMod xi vi
  let yi ← castInt self.y
  let ry ← intMod yi vi
  let zi ← castInt self.z
  let rz ← intMod zi vi
  pure ⟨(rx : α), (ry : α), (rz : α)⟩

/-- The member `float operator*(const Vector3 &v) const`. -/
def opDot [Add α] [Mul α] (self v : Vector3 α) : α :=
  self.x * v.x + self.y * v.y + self.z * v.z

/-- The member `float dot(const Vector3 &v) const`. -/
def dot [Add α] [Mul α] (self v : Vector3 α) : α :=
  self.x * v.x + self.y * v.y + self.z * v.z

/-- The member `Vector3 operator%(const Vector3 &v) const`. -/
def opCross [Sub α] [Mul α] (self v : Vector3 α) : Vector3 α :=
  ⟨self.y * v.z - self.z * v.y,
   self.z * v.x - self.x * v.z,
   self.x * v.y - self.y * v.x⟩

/-- The member `Vector3 cross(const Vector3 &v) const`. -/
def cross [Sub α] [Mul α] (self v : Vector3 α) : Vector3 α :=
  ⟨self.y * v.z - self.z * v.y,
   self.z * v.x - self.x * v.z,
   self.x * v.y - self.y * v.x⟩

/-- The member `void operator%=(const Vector3 &v)`: `*this = cross(v);` run on
the memory `m`.  The temporary returned by `cross` is complete before the
assignment writes the receiver. -/
def opCrossAssign [Sub α] [Mul α] (m : Nat → Vector3 α) (self v : Nat) :
    Nat → Vector3 α :=
  let tmp := (m self).cross (m v)
  Function.update m self tmp

end Vector3

/-! ## Truncation and the remainder of scalars -/

/-- The integer that `(int)x` keeps of `x`: the value rounded toward zero,
before any question of range. -/
def truncate [LinearOrderedField α] [FloorRing α] (x : α) : Int :=
  if 0 ≤ x then ⌊x⌋ else ⌈x⌉

/-- The remainder of `x` by `v` on scalars, as `fmod` of `<math.h>` defines
it: `x - n * v` with `n` the quotient `x / v` rounded toward zero.  This is
the reference the scalar modulus is compared with; no source line computes
it. -/
def trueRemainder [LinearOrderedField α] [FloorRing α] (x v : α) : α :=
  x - (truncate (x / v) : α) * v

/-- The conversion `(int)x` is defined: the truncated value of `x` is
representable in `int`. -/
def fitsInt [LinearOrderedField α] [FloorRing α] (x : α) : Prop :=
  INT_MIN ≤ truncate x ∧ truncate x ≤ INT_MAX

instance fitsIntDecidable [LinearOrderedField α] [FloorRing α] (x : α) :
    Decidable (fitsInt x) :=
  inferInstanceAs (Decidable (INT_MIN ≤ truncate x ∧ truncate x ≤ INT_MAX))

/-! ## Vector2: length -/

namespace Vector2

/-- The member `float length()`: `sqrt((x*x)+(y*y))`.  The function `sqrt` of
`<math.h>` is a parameter. -/
def length [Add α] [Mul α] (sqrt : α → α) (self : Vector2 α) : α :=
  sqrt ((self.x * self.x) + (self.y * self.y))

end Vector2

/-! ## Quaternion

`quaternion.h` declares the class and its members; their bodies are not part
of the sources, so each member below follows the specification (section 4.2).
-/

/-- The class `Quaternion` of `quaternion.h`: fields `float s; Vector3 v;`. -/
@[ext]
structure Quaternion (α : Type) where
  s : α
  v : Vector3 α
deriving DecidableEq

namespace Quaternion

/-- Modelled from the spec: the body of `Quaternion operator*(const
Quaternion& q) const` is missing.  The same Hamilton product as `multiply`. -/
def opMul [Add α] [Sub α] [Mul α] (self q : Quaternion α) : Quaternion α :=
  ⟨self.s * q.s - self.v.dot q.v,
   ((q.v.opMul self.s).opAdd (self.v.opMul q.s)).opAdd (self.v.cross q.v)⟩

/-- Modelled from the spec: the body of `Quaternion Conjugate()` is missing.
A new quaternion `(s, -v)`: the vector part negated, the scalar part kept. -/
def Conjugate [Neg α] (self : Quaternion α) : Quaternion α :=
  ⟨self.s, ⟨-self.v.x, -self.v.y, -self.v.z⟩⟩

/-- Modelled from the spec: a call of `Conjugate()` on a stored quaternion:
the new memory and the returned value.  The original instance is left
unmodified. -/
def callConjugate [Neg α] (m : Nat → Quaternion α) (self : Nat) :
    (Nat → Quaternion α) × Quaternion α :=
  (m, (m self).Conjugate)

end Quaternion

/-! ## binary32

The claims whose truth depends on rounding, overflow or NaN are settled on this
model of the IEEE-754 binary32 format, the C++ `float`: each operation computes
the exact rational result and rounds it to nearest, ties to even (the default
rounding mode), with overflow to an infinity and the usual rules for infinities
and NaN.  Every `float` expression of the source is taken to be evaluated in
binary32, one rounding per operation (no fused multiply-add).  Equality of
data is equality of representation: `+0` and `-0` are distinct, NaN is one
value.
-/

/-- A binary32 datum: a finite value `(-1)^neg * mag` with `mag ≥ 0` (so both
zeros are present), an infinity with its sign, or NaN (sign and payload of a
NaN are not represented). -/
inductive F32 where
  | fin (neg : Bool) (mag : ℚ)
  | inf (neg : Bool)
  | nan
deriving DecidableEq

namespace F32

/-- Rounding of a non-negative rational to the nearest integer, ties to the
even one. -/
def roundHalfEven (x : ℚ) : Int :=
  let f : Int := ⌊x⌋
  if x - f < 1 / 2 then f
  else if 1 / 2 < x - f then f + 1
  else if f % 2 = 0 then f else f + 1

/-- Exponent of the spacing of binary32 around the magnitude `m`: 24
significant bits for a normal number (`2^e ≤ m < 2^(e+1)` gives `e - 23`), the
fixed spacing `2^-149` below `2^-126`. -/
def ulpExp (m : ℚ) : Int :=
  max (Int.log 2 m) (-126) - 23

/-- The magnitude `m ≥ 0` rounded to the binary32 grid, exponent unbounded
above. -/
def roundMag (m : ℚ) : ℚ :=
  roundHalfEven (m / 2 ^ ulpExp m) * 2 ^ ulpExp m

/-- The binary32 result of an exact result of sign `neg` and magnitude `m`:
rounded to nearest, an infinity when the rounded magnitude reaches `2^128`. -/
def ofMag (neg : Bool) (m : ℚ) : F32 :=
  if (2 : ℚ) ^ 128 ≤ roundMag m then inf neg else fin neg (roundMag m)

/-- The rational value `(-1)^s * m`. -/
def signed (s : Bool) (m : ℚ) : ℚ :=
  if s then -m else m

/-- Unary minus: the sign bit is flipped. -/
def neg : F32 → F32
  | fin s m => fin (!s) m
  | inf s => inf (!s)
  | nan => nan

/-- Addition.  An exact zero sum is `+0` unless both operands are negative
(zeros); `+∞ + -∞` is NaN. -/
def add : F32 → F32 → F32
  | fin s m, fin t n =>
    if signed s m + signed t n = 0 then fin (s && t) 0
    else ofMag (decide (signed s m + signed t n < 0)) |signed s m + signed t n|
  | fin _ _, inf t => inf t
  | inf s, fin _ _ => inf s
  | inf s, inf t => if s = t then inf s else nan
  | _, _ => nan

/-- Subtraction: `x - y` is `x + (-y)`. -/
def sub (x y : F32) : F32 :=
  add x (neg y)

/-- Multiplication.  `0 * ∞` is NaN. -/
def mul : F32 → F32 → F32
  | fin s m, fin t n => ofMag (xor s t) (m * n)
  | fin s m, inf t => if m = 0 then nan else inf (xor s t)
  | inf s, fin t n => if n = 0 then nan else inf (xor s t)
  | inf s, inf t => inf (xor s t)
  | _, _ => nan

/-- Division.  `0 / 0` and `∞ / ∞` are NaN, a nonzero value over zero is an
infinity. -/
def div : F32 → F32 → F32
  | fin s m, fin t n =>
    if n = 0 then (if m = 0 then nan else inf (xor s t))
    else ofMag (xor s t) (m / n)
  | fin s _, inf t => fin (xor s t) 0
  | inf s, fin t _ => inf (xor s t)
  | _, _ => nan

instance instZero : Zero F32 := ⟨fin false 0⟩

instance instOne : One F32 := ⟨fin false 1⟩

instance instNeg : Neg F32 := ⟨neg⟩

instance instAdd : Add F32 := ⟨add⟩

instance instSub : Sub F32 := ⟨sub⟩

instance instMul : Mul F32 := ⟨mul⟩

instance instDiv : Div F32 := ⟨div⟩

/-- The datum is a finite number (neither an infinity nor NaN). -/
def isFinite : F32 → Prop
  | fin _ _ => True
  | _ => False

/-- The datum is one a `float` variable can hold: a finite one has a
magnitude on the binary32 grid and below `2^128`. -/
def Representable : F32 → Prop
  | fin _ m => 0 ≤ m ∧ roundMag m = m ∧ m < 2 ^ 128
  | _ => True

/-- The range condition of the scaling round trip, on the magnitude `m` of a
component and the magnitude `n` of the scalar: the component is a zero, or the
component and its product with the scalar are normal numbers away from the
ends of the range (`2^-125 ≤ m < 2^126` and `2^-126 ≤ m*n < 2^127`). -/
def scaleInRange (m n : ℚ) : Prop :=
  m = 0 ∨ ((2 : ℚ) ^ (-125 : Int) ≤ m ∧ m < 2 ^ 126 ∧
    (2 : ℚ) ^ (-126 : Int) ≤ m * n ∧ m * n < 2 ^ 127)

end F32

/-- The `float` `1e20f`: the binary32 number nearest to `10^20`. -/
def f1e20 : F32 := F32.fin false 100000002004087734272

/-- A memory holding `Vector3(1e20f, 1e20f, 1e20f)` at every address. -/
def overflowMem : Nat → Vector3 F32 :=
  fun _ => ⟨f1e20, f1e20, f1e20⟩

/-- A memory holding the `float` vector `Vector3(3, 6, 7)` at every address. -/
def sampleMemF : Nat → Vector3 F32 :=
  fun _ => ⟨F32.fin false 3, F32.fin false 6, F32.fin false 7⟩

/-! ## Concrete objects used to evaluate the definitions -/

/-- A memory holding `Vector3(1, 2, 3)` at address 0 and `Vector3(4, 5, 6)`
everywhere else. -/
def sampleMem3 : Nat → Vector3 ℚ :=
  fun p => if p = 0 then ⟨1, 2, 3⟩ else ⟨4, 5, 6⟩

/-- A memory holding `Vector2(1, 2)` at address 0 and `Vector2(4, 5)`
everywhere else. -/
def sampleMem2 : Nat → Vector2 ℚ :=
  fun p => if p = 0 then ⟨1, 2⟩ else ⟨4, 5⟩

/-! ## Theorems -/

/-- C1: the dot product is commutative, `a.dot(b) = b.dot(a)`, for `Vector3`
and for `Vector2`.  Only commutativity of the scalar multiplication is used. -/
theorem dot_comm [Add α] [CommMagma α] :
    (∀ a b : Vector3 α, a.dot b = b.dot a) ∧
    (∀ a b : Vector2 α, a.dot b = b.dot a) := by
  refine ⟨fun a b => ?_, fun a b => ?_⟩
  · simp only [Vector3.dot, mul_comm a.x, mul_comm a.y, mul_comm a.z]
  · simp only [Vector2.dot, mul_comm a.x, mul_comm a.y]

/-- In exact arithmetic (any commutative ring of scalars), `a.cross(a)` is the
zero vector `(0, 0, 0)` for every `a`. -/
theorem cross_self_exact [CommRing α] (a : Vector3 α) :
    a.cross a = ⟨0, 0, 0⟩ := by
  ext <;> simp only [Vector3.cross] <;> ring

/-- C4: `operator%(const Vector3&)` and `cross()` return the same vector, and
that vector is `(a.y*b.z - a.z*b.y, a.z*b.x - a.x*b.z, a.x*b.y - a.y*b.x)`.
No law of the scalar arithmetic is needed. -/
theorem opCross_eq_cross [Sub α] [Mul α] (a b : Vector3 α) :
    a.opCross b = a.cross b ∧
    a.cross b =
      ⟨a.y * b.z - a.z * b.y, a.z * b.x - a.x * b.z, a.x * b.y - a.y * b.x⟩ :=
  ⟨rfl, rfl⟩

/-- C5: `operator*(const Vector&)` and `dot()` return the same scalar, the sum
of the products of corresponding components, for `Vector3` and for `Vector2`.
No law of the scalar arithmetic is needed. -/
theorem opDot_eq_dot [Add α] [Mul α] :
    (∀ a b : Vector3 α,
      a.opDot b = a.dot b ∧ a.dot b = a.x * b.x + a.y * b.y + a.z * b.z) ∧
    (∀ a b : Vector2 α,
      a.opDot b = a.dot b ∧ a.dot b = a.x * b.x + a.y * b.y) :=
  ⟨fun _ _ => ⟨rfl, rfl⟩, fun _ _ => ⟨rfl, rfl⟩⟩

/-- C7: `a + b` and `a - b` return the component-wise sum and difference and
write nothing; `a += b` (resp. `a -= b`) leaves in `a` exactly the value
`a + b` (resp. `a - b`) returns, and leaves every other object, `b` included
when it is a different object, unchanged.  For `Vector3` and for `Vector2`; no
law of the scalar arithmetic is needed. -/
theorem add_sub_assign_spec [Add α] [Sub α] :
    (∀ (m : Nat → Vector3 α) (a b : Nat),
      (Vector3.callOpAdd m a b).2 =
          ⟨(m a).x + (m b).x, (m a).y + (m b).y, (m a).z + (m b).z⟩ ∧
      (Vector3.callOpSub m a b).2 =
          ⟨(m a).x - (m b).x, (m a).y - (m b).y, (m a).z - (m b).z⟩ ∧
      (Vector3.callOpAdd m a b).1 = m ∧
      (Vector3.callOpSub m a b).1 = m ∧
      Vector3.opAddAssign m a b a = (Vector3.callOpAdd m a b).2 ∧
      Vector3.opSubAssign m a b a = (Vector3.callOpSub m a b).2 ∧
      (∀ p, p ≠ a →
        Vector3.opAddAssign m a b p = m p ∧ Vector3.opSubAssign m a b p = m p)) ∧
    (∀ (m : Nat → Vector2 α) (a b : Nat),
      (Vector2.callOpAdd m a b).2 = ⟨(m a).x + (m b).x, (m a).y + (m b).y⟩ ∧
      (Vector2.callOpSub m a b).2 = ⟨(m a).x - (m b).x, (m a).y - (m b).y⟩ ∧
      (Vector2.callOpAdd m a b).1 = m ∧
      (Vector2.callOpSub m a b).1 = m ∧
      Vector2.opAddAssign m a b a = (Vector2.callOpAdd m a b).2 ∧
      Vector2.opSubAssign m a b a = (Vector2.callOpSub m a b).2 ∧
      (∀ p, p ≠ a →
        Vector2.opAddAssign m a b p = m p ∧ Vector2.opSubAssign m a b p = m p)) := by
  refine ⟨fun m a b => ⟨rfl, rfl, rfl, rfl, ?_, ?_, fun p h => ⟨?_, ?_⟩⟩,
    fun m a b => ⟨rfl, rfl, rfl, rfl, ?_, ?_, fun p h => ⟨?_, ?_⟩⟩⟩
  · rcases eq_or_ne b a with rfl | hb <;>
      simp [Vector3.opAddAssign, Vector3.callOpAdd, Vector3.opAdd, Function.update_noteq, *]
  · rcases eq_or_ne b a with rfl | hb <;>
      simp [Vector3.opSubAssign, Vector3.callOpSub, Vector3.opSub, Function.update_noteq, *]
  · simp [Vector3.opAddAssign, Function.update_noteq h]
  · simp [Vector3.opSubAssign, Function.update_noteq h]
  · rcases eq_or_ne b a with rfl | hb <;>
      simp [Vector2.opAddAssign, Vector2.callOpAdd, Vector2.opAdd, Function.update_noteq, *]
  · rcases eq_or_ne b a with rfl | hb <;>
      simp [Vector2.opSubAssign, Vector2.callOpSub, Vector2.opSub, Function.update_noteq, *]
  · simp [Vector2.opAddAssign, Function.update_noteq h]
  · simp [Vector2.opSubAssign, Function.update_noteq h]

/-- Witness for C7 on `sampleMem3`: after `a += b` with `a` at address 0 and
`b` at address 1, the object at address 1 keeps its value. -/
theorem add_sub_assign_spec_witness :
    (1 : Nat) ≠ 0 ∧ Vector3.opAddAssign sampleMem3 0 1 1 = sampleMem3 1 :=
  ⟨by decide,
    ((add_sub_assign_spec.1 sampleMem3 0 1).2.2.2.2.2.2 1 (by decide)).1⟩

/-- In exact arithmetic (any field of scalars), scaling by a nonzero `k` with
`operator*(float)` and then by `1/k` returns the original vector, for
`Vector3` and for `Vector2`. -/
theorem opMul_inv_roundtrip_exact [Field α] (k : α) (hk : k ≠ 0) :
    (∀ a : Vector3 α, (a.opMul k).opMul (1 / k) = a) ∧
    (∀ a : Vector2 α, (a.opMul k).opMul (1 / k) = a) := by
  refine ⟨fun a => ?_, fun a => ?_⟩
  · ext <;> simp only [Vector3.opMul] <;> field_simp
  · ext <;> simp only [Vector2.opMul] <;> field_simp

/-- The exact round trip at `k = 3` and `a = (1, 2, 3)` over `ℚ`. -/
theorem opMul_inv_roundtrip_exact_at_three :
    (3 : ℚ) ≠ 0 ∧
    ((⟨1, 2, 3⟩ : Vector3 ℚ).opMul 3).opMul (1 / 3) = ⟨1, 2, 3⟩ :=
  ⟨by norm_num, (opMul_inv_roundtrip_exact (3 : ℚ) (by norm_num)).1 ⟨1, 2, 3⟩⟩

/-- The conversion `(int)v` of a scalar strictly between -1 and 1 is 0. -/
theorem castInt_of_abs_lt_one [LinearOrderedField α] [FloorRing α] (v : α)
    (hv : |v| < 1) : castInt v = some 0 := by
  have h := abs_lt.mp hv
  have ht : (if 0 ≤ v then ⌊v⌋ else ⌈v⌉) = 0 := by
    split_ifs with h0
    · rw [Int.floor_eq_iff]
      exact ⟨by simpa using h0, by simpa using h.2⟩
    · rw [Int.ceil_eq_iff]
      exact ⟨by simpa using h.1, by simpa using (le_of_lt (not_le.mp h0))⟩
  simp only [castInt, ht]
  decide

/-- The scalar modulus of a `Vector3` by a scalar strictly between -1 and 1 is
an integer remainder by zero: undefined behaviour. -/
theorem vector3_opMod_undefined [LinearOrderedField α] [FloorRing α]
    (a : Vector3 α) (v : α) (hv : |v| < 1) : a.opMod v = none := by
  simp only [Vector3.opMod, castInt_of_abs_lt_one v hv]
  cases castInt a.x <;> simp [intMod]

/-- The scalar modulus of a `Vector2` by a scalar strictly between -1 and 1 is
an integer remainder by zero: undefined behaviour. -/
theorem vector2_opMod_undefined [LinearOrderedField α] [FloorRing α]
    (a : Vector2 α) (v : α) (hv : |v| < 1) : a.opMod v = none := by
  simp only [Vector2.opMod, castInt_of_abs_lt_one v hv]
  cases castInt a.x <;> simp [intMod]

/-- C9 (evaluation at the failing inputs): `Vector3(1,2,3) % 0.5`,
`Vector3(1,2,3) % 0` and `Vector2(1,2) % 0.5` do not return a value: the
divisor `(int)v` is 0 and the `int` remainder is undefined. -/
theorem opMod_scalar_undefined :
    (⟨1, 2, 3⟩ : Vector3 ℚ).opMod (1 / 2) = none ∧
    (⟨1, 2, 3⟩ : Vector3 ℚ).opMod 0 = none ∧
    (⟨1, 2⟩ : Vector2 ℚ).opMod (1 / 2) = none ∧
    (⟨1, 2⟩ : Vector2 ℚ).opMod 0 = none :=
  ⟨vector3_opMod_undefined _ _ (by norm_num [abs_lt]),
   vector3_opMod_undefined _ _ (by norm_num),
   vector2_opMod_undefined _ _ (by norm_num [abs_lt]),
   vector2_opMod_undefined _ _ (by norm_num)⟩

/-- C10: the scalar `operator%=(float)` multiplies: `a %= k` leaves `a` in
exactly the state `a *= k` leaves it in, every component multiplied by `k`, for
`Vector3` and for `Vector2`.  No law of the scalar arithmetic is needed. -/
theorem opModAssign_eq_opMulAssign [Mul α] (k : α) :
    (∀ a : Vector3 α,
      a.opModAssign k = a.opMulAssign k ∧
      a.opModAssign k = ⟨a.x * k, a.y * k, a.z * k⟩) ∧
    (∀ a : Vector2 α,
      a.opModAssign k = a.opMulAssign k ∧
      a.opModAssign k = ⟨a.x * k, a.y * k⟩) :=
  ⟨fun _ => ⟨rfl, rfl⟩, fun _ => ⟨rfl, rfl⟩⟩

/-- The conversion `(int)x` in terms of `truncate`: defined exactly when the
truncated value lies in the range of `int`. -/
theorem castInt_eq_truncate [LinearOrderedField α] [FloorRing α] (x : α) :
    castInt x =
      if INT_MIN ≤ truncate x ∧ truncate x ≤ INT_MAX then some (truncate x)
      else none :=
  rfl

/-- Truncation toward zero is an odd function. -/
theorem truncate_neg [LinearOrderedField α] [FloorRing α] (x : α) :
    truncate (-x) = -truncate x := by
  unfold truncate
  rcases lt_trichotomy x 0 with h | h | h
  · have h1 : 0 ≤ -x := by linarith
    have h2 : ¬ 0 ≤ x := not_le.mpr h
    rw [if_pos h1, if_neg h2, Int.floor_neg]
  · subst h
    simp
  · have h1 : ¬ 0 ≤ -x := by
      intro hc
      linarith
    rw [if_neg h1, if_pos h.le, Int.ceil_neg]

/-- Truncation leaves an integer-valued scalar unchanged. -/
theorem truncate_intCast [LinearOrderedField α] [FloorRing α] (n : Int) :
    truncate (n : α) = n := by
  unfold truncate
  split_ifs <;> simp

/-- On a non-negative dividend and a positive divisor, the truncated quotient
of two integer-valued scalars is the truncated integer quotient. -/
theorem truncate_div_of_nonneg [LinearOrderedField α] [FloorRing α]
    (a b : Int) (ha : 0 ≤ a) (hb : 0 < b) :
    truncate ((a : α) / (b : α)) = a.tdiv b := by
  have hbα : (0 : α) < (b : α) := by exact_mod_cast hb
  have haα : (0 : α) ≤ (a : α) := by exact_mod_cast ha
  have hq : (0 : α) ≤ (a : α) / (b : α) := div_nonneg haα hbα.le
  unfold truncate
  rw [if_pos hq, Int.tdiv_eq_ediv ha hb.le, Int.floor_eq_iff]
  constructor
  · rw [le_div_iff₀ hbα]
    exact_mod_cast Int.ediv_mul_le a hb.ne.symm
  · rw [div_lt_iff₀ hbα]
    exact_mod_cast Int.lt_ediv_add_one_mul_self a hb

/-- The truncated quotient of two integer-valued scalars is the truncated
integer quotient, for every nonzero divisor. -/
theorem truncate_intCast_div [LinearOrderedField α] [FloorRing α]
    (a b : Int) (hb : b ≠ 0) :
    truncate ((a : α) / (b : α)) = a.tdiv b := by
  have pos : ∀ a b : Int, 0 < b →
      truncate ((a : α) / (b : α)) = a.tdiv b := by
    intro a b hb
    rcases le_total 0 a with ha | ha
    · exact truncate_div_of_nonneg a b ha hb
    · have h := truncate_div_of_nonneg (α := α) (-a) b (neg_nonneg.mpr ha) hb
      rw [Int.neg_tdiv, Int.cast_neg, neg_div, truncate_neg] at h
      exact neg_injective h
  rcases lt_or_gt_of_ne hb with h | h
  · have h1 := pos a (-b) (neg_pos.mpr h)
    rw [Int.tdiv_neg, Int.cast_neg, div_neg, truncate_neg] at h1
    exact neg_injective h1
  · exact pos a b h

/-- On integer-valued scalars the `int` remainder is the remainder of the
scalars. -/
theorem trueRemainder_intCast [LinearOrderedField α] [FloorRing α]
    (a b : Int) (hb : b ≠ 0) :
    trueRemainder (a : α) (b : α) = ((a.tmod b : Int) : α) := by
  unfold trueRemainder
  rw [truncate_intCast_div a b hb, Int.tmod_def]
  push_cast
  ring

/-- A conversion `(int)x` that is defined returns the truncated value. -/
theorem castInt_of_fitsInt [LinearOrderedField α] [FloorRing α] (x : α)
    (h : fitsInt x) : castInt x = some (truncate x) := by
  rw [castInt_eq_truncate]
  exact if_pos h

/-- The `int` remainder that is defined returns the truncated remainder. -/
theorem intMod_of_defined (a b : Int) (hb : b ≠ 0)
    (h : ¬ (a = INT_MIN ∧ b = -1)) : intMod a b = some (a.tmod b) := by
  rw [intMod, if_neg hb, if_neg h]

/-- C11 (evaluation at the failing input): for `Vector2(3000000000, 1) % 3`
the claim's value is `(3000000000 rem 3, 0) = (0, 0)`, and 0 is also the
remainder of the scalars, but the conversion `(int)x` is out of the range of
`int`: the behaviour is undefined and no value is returned. -/
theorem vector2_opMod_out_of_range :
    truncate (1 : ℚ) ≠ 0 ∧ truncate (3 : ℚ) ≠ 0 ∧
    (truncate (3000000000 : ℚ)).tmod (truncate (3 : ℚ)) = 0 ∧
    trueRemainder (3000000000 : ℚ) 3 = 0 ∧
    castInt (3000000000 : ℚ) = none ∧
    (⟨3000000000, 1⟩ : Vector2 ℚ).opMod 3 = none := by
  refine ⟨by decide!, by decide!, by decide!, ?_, by decide!, by decide!⟩
  have h := trueRemainder_intCast (α := ℚ) 3000000000 3 (by decide)
  have e : ((Int.tmod 3000000000 3 : Int) : ℚ) = 0 := by decide!
  rw [e] at h
  exact_mod_cast h

/-- Where the conversions `(int)x`, `(int)y`, `(int)v` are defined, the
truncations of `a.y` and `v` are nonzero, and the remainder is not
`INT_MIN % -1`, `Vector2::operator%(float)` returns the vector whose `x` is
the truncated remainder of `trunc(a.x)` by `trunc(v)` and whose `y` is 0,
whatever `v` is. -/
theorem vector2_opMod_spec [LinearOrderedField α] [FloorRing α]
    (a : Vector2 α) (v : α)
    (hx : fitsInt a.x) (hy : fitsInt a.y) (hv : fitsInt v)
    (hy0 : truncate a.y ≠ 0) (hv0 : truncate v ≠ 0)
    (hmin : ¬ (truncate a.x = INT_MIN ∧ truncate v = -1)) :
    a.opMod v =
      some ⟨(((truncate a.x).tmod (truncate v) : Int) : α), 0⟩ := by
  have hyy : ¬ (truncate a.y = INT_MIN ∧ truncate a.y = -1) := by
    rintro ⟨h1, h2⟩
    rw [h1] at h2
    exact absurd h2 (by decide)
  simp only [Vector2.opMod, castInt_of_fitsInt _ hx, castInt_of_fitsInt _ hy,
    castInt_of_fitsInt _ hv, intMod_of_defined _ _ hv0 hmin,
    intMod_of_defined _ _ hy0 hyy, Int.tmod_self, Option.bind_eq_bind,
    Option.some_bind, Int.cast_zero, Option.pure_def]

/-- The defined case at `Vector2(7, 5) % 4` over `ℚ`: every hypothesis holds
and the result is `(7 rem 4, 0) = (3, 0)`. -/
theorem vector2_opMod_spec_witness :
    (fitsInt (7 : ℚ) ∧ fitsInt (5 : ℚ) ∧ fitsInt (4 : ℚ) ∧
      truncate (5 : ℚ) ≠ 0 ∧ truncate (4 : ℚ) ≠ 0 ∧
      ¬ (truncate (7 : ℚ) = INT_MIN ∧ truncate (4 : ℚ) = -1)) ∧
    (⟨7, 5⟩ : Vector2 ℚ).opMod 4 = some ⟨3, 0⟩ :=
  ⟨by decide!,
   (vector2_opMod_spec ⟨7, 5⟩ 4 (by decide!) (by decide!) (by decide!)
     (by decide!) (by decide!) (by decide!)).trans (by decide!)⟩

/-- C14: the double conjugate has the scalar part and the vector part of `q`,
and a call of `Conjugate()` leaves the stored quaternion, and every other one,
unmodified. -/
theorem Conjugate_Conjugate [InvolutiveNeg α] :
    (∀ q : Quaternion α,
      q.Conjugate.Conjugate.s = q.s ∧ q.Conjugate.Conjugate.v = q.v) ∧
    (∀ (m : Nat → Quaternion α) (p : Nat),
      (Quaternion.callConjugate m p).1 = m ∧
      (Quaternion.callConjugate m p).2 =
        ⟨(m p).s, ⟨-(m p).v.x, -(m p).v.y, -(m p).v.z⟩⟩) := by
  refine ⟨fun q => ⟨rfl, ?_⟩, fun m p => ⟨rfl, rfl⟩⟩
  ext <;> simp [Quaternion.Conjugate]

/-- C15 (evaluation at the failing input): for
`Vector3(3000000000, 0, 0) % 3`, with integer-valued operands, the remainder
of each component by the scalar is 0, but the conversion `(int)x` is out of
the range of `int`: the behaviour is undefined and no value is returned. -/
theorem vector3_opMod_out_of_range :
    truncate (3 : ℚ) ≠ 0 ∧
    ((truncate (3000000000 : ℚ) : Int) : ℚ) = 3000000000 ∧
    trueRemainder (3000000000 : ℚ) 3 = 0 ∧
    trueRemainder (0 : ℚ) 3 = 0 ∧
    castInt (3000000000 : ℚ) = none ∧
    (⟨3000000000, 0, 0⟩ : Vector3 ℚ).opMod 3 = none := by
  refine ⟨by decide!, by decide!, ?_, ?_, by decide!, by decide!⟩
  · have h := trueRemainder_intCast (α := ℚ) 3000000000 3 (by decide)
    have e : ((Int.tmod 3000000000 3 : Int) : ℚ) = 0 := by decide!
    rw [e] at h
    exact_mod_cast h
  · have h := trueRemainder_intCast (α := ℚ) 0 3 (by decide)
    have e : ((Int.tmod 0 3 : Int) : ℚ) = 0 := by decide!
    rw [e] at h
    exact_mod_cast h

/-- Where the conversions `(int)x`, `(int)y`, `(int)z`, `(int)v` are
defined, the truncation of `v` is nonzero and no remainder is
`INT_MIN % -1`, `Vector3::operator%(float)` returns, in each component, the
truncated remainder of the truncated component by the truncated scalar; and
when the components and `v` are integer-valued this is the remainder of the
component by `v`. -/
theorem vector3_opMod_spec [LinearOrderedField α] [FloorRing α]
    (a : Vector3 α) (v : α)
    (hx : fitsInt a.x) (hy : fitsInt a.y) (hz : fitsInt a.z) (hv : fitsInt v)
    (hv0 : truncate v ≠ 0)
    (hmin : truncate v = -1 →
      truncate a.x ≠ INT_MIN ∧ truncate a.y ≠ INT_MIN ∧ truncate a.z ≠ INT_MIN) :
    a.opMod v =
      some ⟨(((truncate a.x).tmod (truncate v) : Int) : α),
            (((truncate a.y).tmod (truncate v) : Int) : α),
            (((truncate a.z).tmod (truncate v) : Int) : α)⟩ ∧
    (((truncate a.x : Int) : α) = a.x → ((truncate a.y : Int) : α) = a.y →
      ((truncate a.z : Int) : α) = a.z → ((truncate v : Int) : α) = v →
      a.opMod v =
        some ⟨trueRemainder a.x v, trueRemainder a.y v, trueRemainder a.z v⟩) := by
  have mx : ¬ (truncate a.x = INT_MIN ∧ truncate v = -1) :=
    fun h => (hmin h.2).1 h.1
  have my : ¬ (truncate a.y = INT_MIN ∧ truncate v = -1) :=
    fun h => (hmin h.2).2.1 h.1
  have mz : ¬ (truncate a.z = INT_MIN ∧ truncate v = -1) :=
    fun h => (hmin h.2).2.2 h.1
  have main : a.opMod v =
      some ⟨(((truncate a.x).tmod (truncate v) : Int) : α),
            (((truncate a.y).tmod (truncate v) : Int) : α),
            (((truncate a.z).tmod (truncate v) : Int) : α)⟩ := by
    simp only [Vector3.opMod, castInt_of_fitsInt _ hx, castInt_of_fitsInt _ hy,
      castInt_of_fitsInt _ hz, castInt_of_fitsInt _ hv,
      intMod_of_defined _ _ hv0 mx, intMod_of_defined _ _ hv0 my,
      intMod_of_defined _ _ hv0 mz, Option.bind_eq_bind, Option.some_bind,
      Option.pure_def]
  refine ⟨main, fun ix iy iz iv => ?_⟩
  have ex := trueRemainder_intCast (α := α) (truncate a.x) (truncate v) hv0
  have ey := trueRemainder_intCast (α := α) (truncate a.y) (truncate v) hv0
  have ez := trueRemainder_intCast (α := α) (truncate a.z) (truncate v) hv0
  rw [ix, iv] at ex
  rw [iy, iv] at ey
  rw [iz, iv] at ez
  rw [main, ex, ey, ez]

/-- The defined case at `Vector3(7, -7, 9) % 2` over `ℚ`: every hypothesis
holds and the components are the remainders of 7, -7 and 9 by 2, that is
`(1, -1, 1)`. -/
theorem vector3_opMod_spec_witness :
    (fitsInt (7 : ℚ) ∧ fitsInt (-7 : ℚ) ∧ fitsInt (9 : ℚ) ∧ fitsInt (2 : ℚ) ∧
      truncate (2 : ℚ) ≠ 0) ∧
    (⟨7, -7, 9⟩ : Vector3 ℚ).opMod 2 =
      some ⟨trueRemainder 7 2, trueRemainder (-7) 2, trueRemainder 9 2⟩ ∧
    (⟨7, -7, 9⟩ : Vector3 ℚ).opMod 2 = some ⟨1, -1, 1⟩ :=
  ⟨by decide!,
   (vector3_opMod_spec ⟨7, -7, 9⟩ 2 (by decide!) (by decide!) (by decide!)
      (by decide!) (by decide!) (by decide!)).2
     (by decide!) (by decide!) (by decide!) (by decide!),
   (vector3_opMod_spec ⟨7, -7, 9⟩ 2 (by decide!) (by decide!) (by decide!)
      (by decide!) (by decide!) (by decide!)).1.trans (by decide!)⟩

/-- C16: the cross product is orthogonal to both operands:
`a.dot(a.cross(b)) = 0` and `b.dot(a.cross(b)) = 0`, in any commutative ring
of scalars. -/
theorem dot_cross_orthogonal [CommRing α] (a b : Vector3 α) :
    a.dot (a.cross b) = 0 ∧ b.dot (a.cross b) = 0 := by
  constructor <;> simp only [Vector3.dot, Vector3.cross] <;> ring

/-- C17: the dot product is bilinear over the vector operators:
`(a + b).dot(c) = a.dot(c) + b.dot(c)` and `(a * k).dot(b) = k * a.dot(b)`, in
any commutative ring of scalars. -/
theorem dot_bilinear [CommRing α] (a b c : Vector3 α) (k : α) :
    (a.opAdd b).dot c = a.dot c + b.dot c ∧
    (a.opMul k).dot b = k * a.dot b := by
  constructor <;>
    simp only [Vector3.dot, Vector3.opAdd, Vector3.opMul] <;> ring

/-- C18: over the reals, with the real square root, `length()` is
non-negative, its square is `a.dot(a)`, it is 0 exactly for the zero vector,
and `Vector2(3,4).length()` is 5. -/
theorem length_spec :
    (∀ a : Vector2 ℝ,
      0 ≤ a.length Real.sqrt ∧
      (a.length Real.sqrt) ^ 2 = a.dot a ∧
      (a.length Real.sqrt = 0 ↔ a = ⟨0, 0⟩)) ∧
    (⟨3, 4⟩ : Vector2 ℝ).length Real.sqrt = 5 := by
  refine ⟨fun a => ?_, ?_⟩
  · have hnn : 0 ≤ a.x * a.x + a.y * a.y := by
      nlinarith [sq_nonneg a.x, sq_nonneg a.y]
    refine ⟨Real.sqrt_nonneg _, Real.sq_sqrt hnn, ?_⟩
    simp only [Vector2.length]
    rw [Real.sqrt_eq_zero hnn]
    constructor
    · intro h
      have hx : a.x = 0 := by nlinarith [sq_nonneg a.x, sq_nonneg a.y]
      have hy : a.y = 0 := by nlinarith [sq_nonneg a.x, sq_nonneg a.y]
      ext
      · exact hx
      · exact hy
    · intro h
      rw [h]
      ring
  · simp only [Vector2.length]
    rw [show ((3 : ℝ) * 3 + 4 * 4) = 5 ^ 2 by norm_num]
    exact Real.sqrt_sq (by norm_num)

/-! ### binary32: basic facts -/

/-- Rounding to nearest never goes below an integer lower bound. -/
theorem f32_le_roundHalfEven (n : Int) (x : ℚ) (h : (n : ℚ) ≤ x) :
    n ≤ F32.roundHalfEven x := by
  have hf : n ≤ ⌊x⌋ := Int.le_floor.mpr h
  unfold F32.roundHalfEven
  simp only
  split_ifs <;> omega

/-- Rounding to nearest moves a rational by at most one half. -/
theorem f32_abs_roundHalfEven_sub_le (x : ℚ) :
    |(F32.roundHalfEven x : ℚ) - x| ≤ 1 / 2 := by
  have h0 : (0 : ℚ) ≤ x - ⌊x⌋ := sub_nonneg.mpr (Int.floor_le x)
  have h1 : x - ⌊x⌋ < 1 := by
    have := Int.lt_floor_add_one x
    linarith
  unfold F32.roundHalfEven
  simp only
  rw [abs_le]
  split_ifs with a b c
  · constructor <;> linarith
  · push_cast
    constructor <;> linarith
  · have e : x - ⌊x⌋ = 1 / 2 := le_antisymm (not_lt.mp b) (not_lt.mp a)
    constructor <;> linarith
  · have e : x - ⌊x⌋ = 1 / 2 := le_antisymm (not_lt.mp b) (not_lt.mp a)
    push_cast
    constructor <;> linarith

/-- The spacing exponent of a magnitude whose binade is known. -/
theorem f32_ulpExp_eq (m : ℚ) (e : Int) (he : -126 ≤ e)
    (h1 : (2 : ℚ) ^ e ≤ m) (h2 : m < (2 : ℚ) ^ (e + 1)) :
    F32.ulpExp m = e - 23 := by
  have hpos : (0 : ℚ) < m := lt_of_lt_of_le (by positivity) h1
  have hlog : Int.log 2 m = e := by
    apply le_antisymm
    · have := (Int.lt_zpow_iff_log_lt (b := 2) (by norm_num) hpos).mp
        (by exact_mod_cast h2)
      omega
    · exact (Int.zpow_le_iff_le_log (b := 2) (by norm_num) hpos).mp
        (by exact_mod_cast h1)
  rw [F32.ulpExp, hlog, max_eq_left he]

/-- Zero rounds to zero. -/
theorem f32_roundMag_zero : F32.roundMag 0 = 0 := by
  simp [F32.roundMag, F32.roundHalfEven]

/-- A zero result keeps its sign and is finite. -/
theorem f32_ofMag_zero (s : Bool) : F32.ofMag s 0 = F32.fin s 0 := by
  rw [F32.ofMag, f32_roundMag_zero, if_neg (by norm_num)]

/-- The spacing `2^(L-23)` taken `2^23` times is `2^L`. -/
theorem f32_two_pow_23_mul (L : Int) :
    (8388608 : ℚ) * 2 ^ (L - 23) = 2 ^ L := by
  rw [zpow_sub₀ (by norm_num : (2 : ℚ) ≠ 0)]
  norm_num
  field_simp

/-- A magnitude of at least `2^128` overflows to an infinity. -/
theorem f32_ofMag_overflow (s : Bool) (m : ℚ) (h : (2 : ℚ) ^ 128 ≤ m) :
    F32.ofMag s m = F32.inf s := by
  have hpos : (0 : ℚ) < m := lt_of_lt_of_le (by positivity) h
  have hlog : (128 : Int) ≤ Int.log 2 m :=
    (Int.zpow_le_iff_le_log (b := 2) (by norm_num) hpos).mp
      (by exact_mod_cast h)
  have hu : F32.ulpExp m = Int.log 2 m - 23 := by
    rw [F32.ulpExp, max_eq_left (by omega)]
  have hle : (2 : ℚ) ^ (Int.log 2 m) ≤ m := by
    exact_mod_cast Int.zpow_log_le_self (b := 2) (by norm_num) hpos
  have hupos : (0 : ℚ) < 2 ^ (Int.log 2 m - 23) := by positivity
  have hq : ((8388608 : Int) : ℚ) ≤ m / 2 ^ (Int.log 2 m - 23) := by
    rw [le_div_iff₀ hupos]
    push_cast
    rw [f32_two_pow_23_mul]
    exact hle
  have hr := f32_le_roundHalfEven _ _ hq
  have hbig : (2 : ℚ) ^ 128 ≤ F32.roundMag m := by
    rw [F32.roundMag, hu]
    calc (2 : ℚ) ^ 128 = 2 ^ (128 : Int) := by norm_cast
      _ ≤ 2 ^ (Int.log 2 m) := zpow_le_zpow_right₀ (by norm_num) hlog
      _ = (8388608 : ℚ) * 2 ^ (Int.log 2 m - 23) :=
          (f32_two_pow_23_mul _).symm
      _ ≤ (F32.roundHalfEven (m / 2 ^ (Int.log 2 m - 23)) : ℚ)
            * 2 ^ (Int.log 2 m - 23) := by
          apply mul_le_mul_of_nonneg_right _ hupos.le
          exact_mod_cast hr
  rw [F32.ofMag, if_pos hbig]

/-- Multiplication of binary32 data is commutative. -/
theorem f32_mul_comm (x y : F32) : x * y = y * x := by
  show F32.mul x y = F32.mul y x
  cases x <;> cases y <;> simp [F32.mul, Bool.xor_comm, mul_comm]

/-- Evaluation of a rounding whose binade is known. -/
theorem f32_ofMag_eq (s : Bool) (m : ℚ) (e : Int) (r : ℚ) (he : -126 ≤ e)
    (h1 : (2 : ℚ) ^ e ≤ m) (h2 : m < (2 : ℚ) ^ (e + 1))
    (hr : (F32.roundHalfEven (m / 2 ^ (e - 23)) : ℚ) * 2 ^ (e - 23) = r)
    (hlt : r < 2 ^ 128) : F32.ofMag s m = F32.fin s r := by
  have hm : F32.roundMag m = r := by
    rw [F32.roundMag, f32_ulpExp_eq m e he h1 h2, hr]
  rw [F32.ofMag, hm, if_neg (not_le.mpr hlt)]

/-- A finite datum minus itself is `+0`. -/
theorem f32_sub_self (p : F32) (hp : p.isFinite) : p - p = 0 := by
  cases p with
  | fin s m =>
    show F32.add (F32.fin s m) (F32.neg (F32.fin s m)) = F32.fin false 0
    have h : F32.signed s m + F32.signed (!s) m = 0 := by
      cases s <;> simp [F32.signed]
    simp only [F32.neg, F32.add, h, if_true]
    cases s <;> rfl
  | inf s => exact absurd hp (by simp [F32.isFinite])
  | nan => exact absurd hp (by simp [F32.isFinite])

/-- The `float` `1e20f` is a binary32 number. -/
theorem f1e20_representable : f1e20.Representable := by
  refine ⟨by norm_num, ?_, by norm_num⟩
  rw [F32.roundMag, f32_ulpExp_eq _ 66 (by decide) (by norm_num) (by norm_num)]
  decide!

/-- The square of `1e20f` overflows binary32. -/
theorem f1e20_mul_self : f1e20 * f1e20 = F32.inf false := by
  show F32.ofMag (xor false false)
    (100000002004087734272 * 100000002004087734272) = F32.inf false
  exact f32_ofMag_overflow _ _ (by norm_num)

/-- C3 (as stated, refuted): `Vector3(1e20f, 1e20f, 1e20f).cross(a)` on itself
is `(NaN, NaN, NaN)`, not the zero vector: each product overflows to `+∞` and
`∞ - ∞` is NaN. -/
theorem cross_self_overflow :
    f1e20.Representable ∧
    (⟨f1e20, f1e20, f1e20⟩ : Vector3 F32).cross ⟨f1e20, f1e20, f1e20⟩ =
      ⟨F32.nan, F32.nan, F32.nan⟩ ∧
    (⟨f1e20, f1e20, f1e20⟩ : Vector3 F32).cross ⟨f1e20, f1e20, f1e20⟩ ≠
      ⟨0, 0, 0⟩ := by
  have h : (⟨f1e20, f1e20, f1e20⟩ : Vector3 F32).cross ⟨f1e20, f1e20, f1e20⟩ =
      ⟨F32.nan, F32.nan, F32.nan⟩ := by
    simp only [Vector3.cross, f1e20_mul_self]
    rfl
  refine ⟨f1e20_representable, h, ?_⟩
  rw [h]
  intro hc
  have hx := congrArg Vector3.x hc
  exact F32.noConfusion hx

/-- On binary32, the cross product of a vector with itself is the zero vector
as soon as the three component products are finite. -/
theorem f32_cross_self (a : Vector3 F32)
    (hyz : (a.y * a.z).isFinite) (hzx : (a.z * a.x).isFinite)
    (hxy : (a.x * a.y).isFinite) :
    a.cross a = ⟨0, 0, 0⟩ := by
  simp only [Vector3.cross]
  rw [f32_mul_comm a.z a.y, f32_mul_comm a.x a.z, f32_mul_comm a.y a.x,
    f32_sub_self _ hyz, f32_sub_self _ hzx, f32_sub_self _ hxy]

/-- C3 (amended): for every `float` vector `a` whose component products
`a.y*a.z`, `a.z*a.x`, `a.x*a.y` are finite (no NaN or infinite component, no
overflow), `a.cross(a)` is the zero vector `(0, 0, 0)`. -/
theorem cross_self_of_finite (a : Vector3 F32)
    (hyz : (a.y * a.z).isFinite) (hzx : (a.z * a.x).isFinite)
    (hxy : (a.x * a.y).isFinite) :
    a.cross a = ⟨0, 0, 0⟩ := by
  have ex : a.y * a.z - a.z * a.y = 0 := by
    rw [f32_mul_comm a.z a.y]
    exact f32_sub_self _ hyz
  have ey : a.z * a.x - a.x * a.z = 0 := by
    rw [f32_mul_comm a.x a.z]
    exact f32_sub_self _ hzx
  have ez : a.x * a.y - a.y * a.x = 0 := by
    rw [f32_mul_comm a.y a.x]
    exact f32_sub_self _ hxy
  simp only [Vector3.cross, ex, ey, ez]

/-- Products of the small integers used in the concrete evaluations. -/
theorem f32_small_products :
    (F32.fin false 6 * F32.fin false 7 = F32.fin false 42) ∧
    (F32.fin false 7 * F32.fin false 3 = F32.fin false 21) ∧
    (F32.fin false 3 * F32.fin false 6 = F32.fin false 18) := by
  refine ⟨?_, ?_, ?_⟩
  · exact f32_ofMag_eq _ _ 5 _ (by decide) (by norm_num) (by norm_num)
      (by decide!) (by norm_num)
  · exact f32_ofMag_eq _ _ 4 _ (by decide) (by norm_num) (by norm_num)
      (by decide!) (by norm_num)
  · exact f32_ofMag_eq _ _ 4 _ (by decide) (by norm_num) (by norm_num)
      (by decide!) (by norm_num)

/-- Witness for C3 at `Vector3(3, 6, 7)`: the three products are finite. -/
theorem cross_self_of_finite_witness :
    ((F32.fin false 6 * F32.fin false 7).isFinite ∧
      (F32.fin false 7 * F32.fin false 3).isFinite ∧
      (F32.fin false 3 * F32.fin false 6).isFinite) ∧
    (⟨F32.fin false 3, F32.fin false 6, F32.fin false 7⟩ : Vector3 F32).cross
        ⟨F32.fin false 3, F32.fin false 6, F32.fin false 7⟩ = ⟨0, 0, 0⟩ := by
  have h1 : (F32.fin false 6 * F32.fin false 7).isFinite := by
    rw [f32_small_products.1]
    trivial
  have h2 : (F32.fin false 7 * F32.fin false 3).isFinite := by
    rw [f32_small_products.2.1]
    trivial
  have h3 : (F32.fin false 3 * F32.fin false 6).isFinite := by
    rw [f32_small_products.2.2]
    trivial
  exact ⟨⟨h1, h2, h3⟩, cross_self_of_finite _ h1 h2 h3⟩

/-- C6 (as stated, refuted): with `a = Vector3(1e20f, 1e20f, 1e20f)`, the
aliased call `a %= a` leaves `(NaN, NaN, NaN)` in `a`, not the zero vector. -/
theorem opCrossAssign_self_overflow :
    f1e20.Representable ∧
    Vector3.opCrossAssign overflowMem 0 0 0 = ⟨F32.nan, F32.nan, F32.nan⟩ ∧
    Vector3.opCrossAssign overflowMem 0 0 0 ≠ ⟨0, 0, 0⟩ := by
  have h : Vector3.opCrossAssign overflowMem 0 0 0 =
      ⟨F32.nan, F32.nan, F32.nan⟩ := by
    simp only [Vector3.opCrossAssign, Function.update_same, overflowMem,
      Vector3.cross, f1e20_mul_self]
    rfl
  refine ⟨f1e20_representable, h, ?_⟩
  rw [h]
  intro hc
  have hx := congrArg Vector3.x hc
  exact F32.noConfusion hx

/-- C6 (amended): after `a %= b` (receiver at address `self`, argument at
address `v`) the receiver holds the cross product of its old value with the
argument, all three components taken from the old receiver, and every other
object, the argument included when it is a different object, is unchanged, in
any scalar arithmetic; and on `float`, `a %= a` leaves the zero vector
whenever the component products `a.y*a.z`, `a.z*a.x`, `a.x*a.y` are finite. -/
theorem opCrossAssign_spec [Sub α] [Mul α] :
    (∀ (m : Nat → Vector3 α) (self v : Nat),
      Vector3.opCrossAssign m self v self =
        ⟨(m self).y * (m v).z - (m self).z * (m v).y,
         (m self).z * (m v).x - (m self).x * (m v).z,
         (m self).x * (m v).y - (m self).y * (m v).x⟩ ∧
      (v ≠ self → Vector3.opCrossAssign m self v v = m v) ∧
      (∀ p, p ≠ self → Vector3.opCrossAssign m self v p = m p)) ∧
    (∀ (m : Nat → Vector3 F32) (self : Nat),
      ((m self).y * (m self).z).isFinite →
      ((m self).z * (m self).x).isFinite →
      ((m self).x * (m self).y).isFinite →
      Vector3.opCrossAssign m self self self = ⟨0, 0, 0⟩) := by
  refine ⟨fun m self v => ⟨?_, fun h => ?_, fun p h => ?_⟩,
    fun m self hyz hzx hxy => ?_⟩
  · simp [Vector3.opCrossAssign, Vector3.cross]
  · simp [Vector3.opCrossAssign, Function.update_noteq h]
  · simp [Vector3.opCrossAssign, Function.update_noteq h]
  · simp only [Vector3.opCrossAssign, Function.update_same]
    exact f32_cross_self (m self) hyz hzx hxy

/-- Witness for C6: on `sampleMem3` the argument at address 1 is a different
object from the receiver at address 0 and keeps its value; on `sampleMemF`
the products of `Vector3(3, 6, 7)` are finite and `a %= a` leaves zero. -/
theorem opCrossAssign_spec_witness :
    ((1 : Nat) ≠ 0 ∧ Vector3.opCrossAssign sampleMem3 0 1 1 = sampleMem3 1) ∧
    (((sampleMemF 0).y * (sampleMemF 0).z).isFinite ∧
      ((sampleMemF 0).z * (sampleMemF 0).x).isFinite ∧
      ((sampleMemF 0).x * (sampleMemF 0).y).isFinite) ∧
    Vector3.opCrossAssign sampleMemF 0 0 0 = ⟨0, 0, 0⟩ := by
  have h1 : ((sampleMemF 0).y * (sampleMemF 0).z).isFinite := by
    show (F32.fin false 6 * F32.fin false 7).isFinite
    rw [f32_small_products.1]
    trivial
  have h2 : ((sampleMemF 0).z * (sampleMemF 0).x).isFinite := by
    show (F32.fin false 7 * F32.fin false 3).isFinite
    rw [f32_small_products.2.1]
    trivial
  have h3 : ((sampleMemF 0).x * (sampleMemF 0).y).isFinite := by
    show (F32.fin false 3 * F32.fin false 6).isFinite
    rw [f32_small_products.2.2]
    trivial
  exact ⟨⟨by decide, ((opCrossAssign_spec (α := ℚ)).1 sampleMem3 0 1).2.1
      (by decide)⟩, ⟨h1, h2, h3⟩,
    (opCrossAssign_spec (α := ℚ)).2 sampleMemF 0 h1 h2 h3⟩

/-! ### binary32: the relative error of one rounding -/

/-- A normal magnitude is moved by rounding by at most `2^-24` of itself. -/
theorem f32_roundMag_err (m : ℚ) (hm : (2 : ℚ) ^ (-126 : Int) ≤ m) :
    |F32.roundMag m - m| ≤ m / 2 ^ 24 := by
  have hpos : (0 : ℚ) < m := lt_of_lt_of_le (by positivity) hm
  have hL : (-126 : Int) ≤ Int.log 2 m :=
    (Int.zpow_le_iff_le_log (b := 2) (by norm_num) hpos).mp
      (by exact_mod_cast hm)
  have hle : (2 : ℚ) ^ (Int.log 2 m) ≤ m := by
    exact_mod_cast Int.zpow_log_le_self (b := 2) (by norm_num) hpos
  have hu : F32.ulpExp m = Int.log 2 m - 23 := by
    rw [F32.ulpExp, max_eq_left hL]
  have hupos : (0 : ℚ) < 2 ^ (Int.log 2 m - 23) := by positivity
  have h23 := f32_two_pow_23_mul (Int.log 2 m)
  have herr := f32_abs_roundHalfEven_sub_le (m / 2 ^ (Int.log 2 m - 23))
  have hsplit : F32.roundMag m - m =
      ((F32.roundHalfEven (m / 2 ^ (Int.log 2 m - 23)) : ℚ)
        - m / 2 ^ (Int.log 2 m - 23)) * 2 ^ (Int.log 2 m - 23) := by
    rw [F32.roundMag, hu]
    field_simp
  rw [hsplit, abs_mul, abs_of_pos hupos]
  calc |(F32.roundHalfEven (m / 2 ^ (Int.log 2 m - 23)) : ℚ)
          - m / 2 ^ (Int.log 2 m - 23)| * 2 ^ (Int.log 2 m - 23)
      ≤ 1 / 2 * 2 ^ (Int.log 2 m - 23) :=
        mul_le_mul_of_nonneg_right herr hupos.le
    _ = 2 ^ (Int.log 2 m) / 2 ^ 24 := by
        rw [← h23]
        ring
    _ ≤ m / 2 ^ 24 := by
        apply div_le_div_of_nonneg_right hle
        positivity

/-- Two-sided form of the rounding error of a normal magnitude. -/
theorem f32_roundMag_bounds (m : ℚ) (hm : (2 : ℚ) ^ (-126 : Int) ≤ m) :
    (1 - 1 / 2 ^ 24) * m ≤ F32.roundMag m ∧
    F32.roundMag m ≤ (1 + 1 / 2 ^ 24) * m := by
  have h := abs_le.mp (f32_roundMag_err m hm)
  constructor <;> linarith [h.1, h.2]

/-- A normal magnitude below `2^127` rounds to a finite datum within the
relative error `2^-24`. -/
theorem f32_ofMag_normal (s : Bool) (m : ℚ)
    (hm : (2 : ℚ) ^ (-126 : Int) ≤ m) (hlt : m < 2 ^ 127) :
    F32.ofMag s m = F32.fin s (F32.roundMag m) ∧
    (1 - 1 / 2 ^ 24) * m ≤ F32.roundMag m ∧
    F32.roundMag m ≤ (1 + 1 / 2 ^ 24) * m := by
  have hb := f32_roundMag_bounds m hm
  have hpos : (0 : ℚ) < m := lt_of_lt_of_le (by positivity) hm
  refine ⟨?_, hb⟩
  have h128 : F32.roundMag m < 2 ^ 128 := by
    calc F32.roundMag m ≤ (1 + 1 / 2 ^ 24) * m := hb.2
      _ ≤ 2 * m := by
          apply mul_le_mul_of_nonneg_right _ hpos.le
          norm_num
      _ < 2 * 2 ^ 127 := by linarith
      _ = 2 ^ 128 := by norm_num
  rw [F32.ofMag, if_neg (not_le.mpr h128)]

/-- The scaling round trip on one `float` component: under the range
conditions, `(x * k) * (1 / k)` is finite, has the sign of `x`, and its
magnitude is within `2^-22` (relative) of that of `x`. -/
theorem f32_roundtrip_scalar (s t : Bool) (m n : ℚ)
    (hr : F32.scaleInRange m n)
    (hk1 : (2 : ℚ) ^ (-126 : Int) ≤ 1 / n) (hk2 : 1 / n < 2 ^ 127) :
    ∃ r : ℚ, (F32.fin s m * F32.fin t n) * (1 / F32.fin t n) = F32.fin s r ∧
      |r - m| ≤ m / 2 ^ 22 := by
  have hinvpos : (0 : ℚ) < 1 / n := lt_of_lt_of_le (by positivity) hk1
  have hn : (0 : ℚ) < n := by
    rcases lt_trichotomy n 0 with h | h | h
    · have : 1 / n < 0 := one_div_neg.mpr h
      linarith
    · rw [h] at hinvpos
      simp at hinvpos
    · exact h
  have hn0 : n ≠ 0 := hn.ne.symm
  obtain ⟨hI, hIlo, hIhi⟩ := f32_ofMag_normal t (1 / n) hk1 hk2
  have hdiv : (1 : F32) / F32.fin t n = F32.fin t (F32.roundMag (1 / n)) := by
    show F32.div (F32.fin false 1) (F32.fin t n) = _
    simp only [F32.div, if_neg hn0, Bool.false_xor]
    exact hI
  have hsign : xor (xor s t) t = s := by
    cases s <;> cases t <;> rfl
  rcases hr with h0 | ⟨hm1, hm2, hp1, hp2⟩
  · refine ⟨0, ?_, by simp [h0]⟩
    rw [hdiv, h0]
    show F32.mul (F32.mul (F32.fin s 0) (F32.fin t n)) _ = _
    simp only [F32.mul, zero_mul, f32_ofMag_zero, hsign]
  · have hmpos : (0 : ℚ) < m := lt_of_lt_of_le (by positivity) hm1
    obtain ⟨hP, hPlo, hPhi⟩ := f32_ofMag_normal (xor s t) (m * n) hp1 hp2
    have hIpos : (0 : ℚ) ≤ F32.roundMag (1 / n) :=
      le_trans (mul_nonneg (by norm_num) hinvpos.le) hIlo
    have hPpos : (0 : ℚ) ≤ F32.roundMag (m * n) :=
      le_trans (mul_nonneg (by norm_num) (mul_pos hmpos hn).le) hPlo
    have hlo : (1 - 1 / 2 ^ 24) * (1 - 1 / 2 ^ 24) * m ≤
        F32.roundMag (m * n) * F32.roundMag (1 / n) := by
      calc (1 - 1 / 2 ^ 24) * (1 - 1 / 2 ^ 24) * m
          = ((1 - 1 / 2 ^ 24) * (m * n)) * ((1 - 1 / 2 ^ 24) * (1 / n)) := by
            field_simp
            ring
        _ ≤ F32.roundMag (m * n) * F32.roundMag (1 / n) :=
            mul_le_mul hPlo hIlo
              (mul_nonneg (by norm_num) hinvpos.le) hPpos
    have hhi : F32.roundMag (m * n) * F32.roundMag (1 / n) ≤
        (1 + 1 / 2 ^ 24) * (1 + 1 / 2 ^ 24) * m := by
      calc F32.roundMag (m * n) * F32.roundMag (1 / n)
          ≤ ((1 + 1 / 2 ^ 24) * (m * n)) * ((1 + 1 / 2 ^ 24) * (1 / n)) :=
            mul_le_mul hPhi hIhi hIpos
              (mul_nonneg (by norm_num) (mul_pos hmpos hn).le)
        _ = (1 + 1 / 2 ^ 24) * (1 + 1 / 2 ^ 24) * m := by
            field_simp
            ring
    have hq1 : (2 : ℚ) ^ (-126 : Int) ≤
        F32.roundMag (m * n) * F32.roundMag (1 / n) := by
      have e : (2 : ℚ) ^ (-126 : Int) = 1 / 2 * 2 ^ (-125 : Int) := by
        rw [show (-125 : Int) = -126 + 1 by norm_num,
          zpow_add₀ (by norm_num : (2 : ℚ) ≠ 0)]
        norm_num
      calc (2 : ℚ) ^ (-126 : Int) = 1 / 2 * 2 ^ (-125 : Int) := e
        _ ≤ (1 - 1 / 2 ^ 24) * (1 - 1 / 2 ^ 24) * 2 ^ (-125 : Int) := by
            apply mul_le_mul_of_nonneg_right _ (by positivity)
            norm_num
        _ ≤ (1 - 1 / 2 ^ 24) * (1 - 1 / 2 ^ 24) * m :=
            mul_le_mul_of_nonneg_left hm1 (by norm_num)
        _ ≤ _ := hlo
    have hq2 : F32.roundMag (m * n) * F32.roundMag (1 / n) < 2 ^ 127 := by
      calc F32.roundMag (m * n) * F32.roundMag (1 / n)
          ≤ (1 + 1 / 2 ^ 24) * (1 + 1 / 2 ^ 24) * m := hhi
        _ ≤ 2 * m := by
            apply mul_le_mul_of_nonneg_right _ hmpos.le
            norm_num
        _ < 2 * 2 ^ 126 := by linarith
        _ = 2 ^ 127 := by norm_num
    obtain ⟨hR, hRlo, hRhi⟩ := f32_ofMag_normal s _ hq1 hq2
    refine ⟨F32.roundMag (F32.roundMag (m * n) * F32.roundMag (1 / n)), ?_, ?_⟩
    · rw [hdiv]
      show F32.mul (F32.mul (F32.fin s m) (F32.fin t n)) _ = _
      simp only [F32.mul, hP, hsign]
      exact hR
    · have up : F32.roundMag (F32.roundMag (m * n) * F32.roundMag (1 / n)) ≤
          (1 + 1 / 2 ^ 22) * m := by
        calc F32.roundMag (F32.roundMag (m * n) * F32.roundMag (1 / n))
            ≤ (1 + 1 / 2 ^ 24) *
                (F32.roundMag (m * n) * F32.roundMag (1 / n)) := hRhi
          _ ≤ (1 + 1 / 2 ^ 24) *
                ((1 + 1 / 2 ^ 24) * (1 + 1 / 2 ^ 24) * m) :=
              mul_le_mul_of_nonneg_left hhi (by norm_num)
          _ = ((1 + 1 / 2 ^ 24) * (1 + 1 / 2 ^ 24) * (1 + 1 / 2 ^ 24)) * m := by
              ring
          _ ≤ (1 + 1 / 2 ^ 22) * m := by
              apply mul_le_mul_of_nonneg_right _ hmpos.le
              norm_num
      have dn : (1 - 1 / 2 ^ 22) * m ≤
          F32.roundMag (F32.roundMag (m * n) * F32.roundMag (1 / n)) := by
        calc (1 - 1 / 2 ^ 22) * m
            ≤ ((1 - 1 / 2 ^ 24) * (1 - 1 / 2 ^ 24) * (1 - 1 / 2 ^ 24)) * m := by
              apply mul_le_mul_of_nonneg_right _ hmpos.le
              norm_num
          _ = (1 - 1 / 2 ^ 24) *
                ((1 - 1 / 2 ^ 24) * (1 - 1 / 2 ^ 24) * m) := by
              ring
          _ ≤ (1 - 1 / 2 ^ 24) *
                (F32.roundMag (m * n) * F32.roundMag (1 / n)) :=
              mul_le_mul_of_nonneg_left hlo (by norm_num)
          _ ≤ _ := hRlo
      rw [abs_le]
      constructor <;> linarith

/-- The binary32 operations met when `Vector3(3, 6, 7)` is scaled by `7` and
then by `1/7`. -/
theorem f32_scale_by_seven :
    ((1 : F32) / F32.fin false 7 = F32.fin false (9586981 / 67108864)) ∧
    (F32.fin false 3 * F32.fin false 7 = F32.fin false 21) ∧
    (F32.fin false 6 * F32.fin false 7 = F32.fin false 42) ∧
    (F32.fin false 7 * F32.fin false 7 = F32.fin false 49) ∧
    (F32.fin false 21 * F32.fin false (9586981 / 67108864) =
      F32.fin false (12582913 / 4194304)) ∧
    (F32.fin false 42 * F32.fin false (9586981 / 67108864) =
      F32.fin false (12582913 / 2097152)) ∧
    (F32.fin false 49 * F32.fin false (9586981 / 67108864) =
      F32.fin false (14680065 / 2097152)) := by
  refine ⟨?_, ?_, ?_, ?_, ?_, ?_, ?_⟩
  · show F32.div (F32.fin false 1) (F32.fin false 7) = _
    simp only [F32.div, if_neg (by norm_num : (7 : ℚ) ≠ 0)]
    exact f32_ofMag_eq _ _ (-3) _ (by decide) (by norm_num) (by norm_num)
      (by decide!) (by norm_num)
  · exact f32_ofMag_eq _ _ 4 _ (by decide) (by norm_num) (by norm_num)
      (by decide!) (by norm_num)
  · exact f32_ofMag_eq _ _ 5 _ (by decide) (by norm_num) (by norm_num)
      (by decide!) (by norm_num)
  · exact f32_ofMag_eq _ _ 5 _ (by decide) (by norm_num) (by norm_num)
      (by decide!) (by norm_num)
  · exact f32_ofMag_eq _ _ 1 _ (by decide) (by norm_num) (by norm_num)
      (by decide!) (by norm_num)
  · exact f32_ofMag_eq _ _ 2 _ (by decide) (by norm_num) (by norm_num)
      (by decide!) (by norm_num)
  · exact f32_ofMag_eq _ _ 2 _ (by decide) (by norm_num) (by norm_num)
      (by decide!) (by norm_num)

/-- The `float` `3000000000.0f` is a binary32 number. -/
theorem f32_three_billion_representable :
    (F32.fin false 3000000000).Representable := by
  refine ⟨by norm_num, ?_, by norm_num⟩
  rw [F32.roundMag, f32_ulpExp_eq _ 31 (by decide) (by norm_num) (by norm_num)]
  decide!

/-- The small integers `3`, `6`, `7` are binary32 numbers. -/
theorem f32_small_representable :
    (F32.fin false 3).Representable ∧ (F32.fin false 6).Representable ∧
    (F32.fin false 7).Representable := by
  refine ⟨⟨by norm_num, ?_, by norm_num⟩, ⟨by norm_num, ?_, by norm_num⟩,
    ⟨by norm_num, ?_, by norm_num⟩⟩
  · rw [F32.roundMag, f32_ulpExp_eq _ 1 (by decide) (by norm_num) (by norm_num)]
    decide!
  · rw [F32.roundMag, f32_ulpExp_eq _ 2 (by decide) (by norm_num) (by norm_num)]
    decide!
  · rw [F32.roundMag, f32_ulpExp_eq _ 2 (by decide) (by norm_num) (by norm_num)]
    decide!

/-- C8 (as stated, refuted): on `float`, scaling `Vector3(3, 6, 7)` by `7` and
then by `1/7` returns `(3 + 2^-22, 6 + 2^-21, 7 + 2^-21)`, that is
`(3.00000024, 6.00000048, 7.00000048)`, not the original vector. -/
theorem opMul_inv_roundtrip_inexact :
    ((F32.fin false 3).Representable ∧ (F32.fin false 6).Representable ∧
      (F32.fin false 7).Representable) ∧
    ((⟨F32.fin false 3, F32.fin false 6, F32.fin false 7⟩ : Vector3 F32).opMul
        (F32.fin false 7)).opMul (1 / F32.fin false 7) =
      ⟨F32.fin false (12582913 / 4194304), F32.fin false (12582913 / 2097152),
       F32.fin false (14680065 / 2097152)⟩ ∧
    ((⟨F32.fin false 3, F32.fin false 6, F32.fin false 7⟩ : Vector3 F32).opMul
        (F32.fin false 7)).opMul (1 / F32.fin false 7) ≠
      ⟨F32.fin false 3, F32.fin false 6, F32.fin false 7⟩ := by
  obtain ⟨h1, h2, h3, h4, h5, h6, h7⟩ := f32_scale_by_seven
  have h : ((⟨F32.fin false 3, F32.fin false 6, F32.fin false 7⟩ :
      Vector3 F32).opMul (F32.fin false 7)).opMul (1 / F32.fin false 7) =
      ⟨F32.fin false (12582913 / 4194304), F32.fin false (12582913 / 2097152),
       F32.fin false (14680065 / 2097152)⟩ := by
    simp only [Vector3.opMul, h1, h2, h3, h4, h5, h6, h7]
  refine ⟨f32_small_representable, h, ?_⟩
  rw [h]
  intro hc
  have hx := congrArg Vector3.x hc
  simp only [F32.fin.injEq, true_and] at hx
  norm_num at hx

/-- C8 (amended): on `float`, for a finite scalar `k` whose reciprocal is a
normal number, scaling a vector by `k` with `operator*(float)` and then by
`1/k` returns each component with its sign and with a magnitude within
`2^-22` (relative) of the original, provided the component is a zero or the
component and its product with `k` stay in the normal range away from its
ends; for `Vector3` and for `Vector2`. -/
theorem opMul_inv_roundtrip_tolerance (sk : Bool) (k : ℚ)
    (hk1 : (2 : ℚ) ^ (-126 : Int) ≤ 1 / k) (hk2 : 1 / k < 2 ^ 127) :
    (∀ (sx sy sz : Bool) (x y z : ℚ),
      F32.scaleInRange x k → F32.scaleInRange y k → F32.scaleInRange z k →
      ∃ x' y' z' : ℚ,
        ((⟨F32.fin sx x, F32.fin sy y, F32.fin sz z⟩ : Vector3 F32).opMul
            (F32.fin sk k)).opMul (1 / F32.fin sk k) =
          ⟨F32.fin sx x', F32.fin sy y', F32.fin sz z'⟩ ∧
        |x' - x| ≤ x / 2 ^ 22 ∧ |y' - y| ≤ y / 2 ^ 22 ∧
        |z' - z| ≤ z / 2 ^ 22) ∧
    (∀ (sx sy : Bool) (x y : ℚ),
      F32.scaleInRange x k → F32.scaleInRange y k →
      ∃ x' y' : ℚ,
        ((⟨F32.fin sx x, F32.fin sy y⟩ : Vector2 F32).opMul
            (F32.fin sk k)).opMul (1 / F32.fin sk k) =
          ⟨F32.fin sx x', F32.fin sy y'⟩ ∧
        |x' - x| ≤ x / 2 ^ 22 ∧ |y' - y| ≤ y / 2 ^ 22) := by
  constructor
  · intro sx sy sz x y z hx hy hz
    obtain ⟨x', ex, bx⟩ := f32_roundtrip_scalar sx sk x k hx hk1 hk2
    obtain ⟨y', ey, by'⟩ := f32_roundtrip_scalar sy sk y k hy hk1 hk2
    obtain ⟨z', ez, bz⟩ := f32_roundtrip_scalar sz sk z k hz hk1 hk2
    refine ⟨x', y', z', ?_, bx, by', bz⟩
    simp only [Vector3.opMul, ex, ey, ez]
  · intro sx sy x y hx hy
    obtain ⟨x', ex, bx⟩ := f32_roundtrip_scalar sx sk x k hx hk1 hk2
    obtain ⟨y', ey, by'⟩ := f32_roundtrip_scalar sy sk y k hy hk1 hk2
    refine ⟨x', y', ?_, bx, by'⟩
    simp only [Vector2.opMul, ex, ey]

/-- Witness for C8 at `Vector3(3, 6, 7)` and `k = 7`: the range conditions
hold, and the result is within `2^-22` of each component. -/
theorem opMul_inv_roundtrip_tolerance_witness :
    ((2 : ℚ) ^ (-126 : Int) ≤ 1 / 7 ∧ (1 / 7 : ℚ) < 2 ^ 127 ∧
      F32.scaleInRange 3 7 ∧ F32.scaleInRange 6 7 ∧ F32.scaleInRange 7 7) ∧
    ∃ x' y' z' : ℚ,
      ((⟨F32.fin false 3, F32.fin false 6, F32.fin false 7⟩ :
          Vector3 F32).opMul (F32.fin false 7)).opMul (1 / F32.fin false 7) =
        ⟨F32.fin false x', F32.fin false y', F32.fin false z'⟩ ∧
      |x' - 3| ≤ 3 / 2 ^ 22 ∧ |y' - 6| ≤ 6 / 2 ^ 22 ∧
      |z' - 7| ≤ 7 / 2 ^ 22 := by
  have a1 : (2 : ℚ) ^ (-126 : Int) ≤ 1 / 7 := by
    rw [zpow_neg]
    norm_num
  have a2 : (1 / 7 : ℚ) < 2 ^ 127 := by norm_num
  have r3 : F32.scaleInRange 3 7 :=
    Or.inr ⟨by rw [zpow_neg]; norm_num, by norm_num,
      by rw [zpow_neg]; norm_num, by norm_num⟩
  have r6 : F32.scaleInRange 6 7 :=
    Or.inr ⟨by rw [zpow_neg]; norm_num, by norm_num,
      by rw [zpow_neg]; norm_num, by norm_num⟩
  have r7 : F32.scaleInRange 7 7 :=
    Or.inr ⟨by rw [zpow_neg]; norm_num, by norm_num,
      by rw [zpow_neg]; norm_num, by norm_num⟩
  exact ⟨⟨a1, a2, r3, r6, r7⟩,
    (opMul_inv_roundtrip_tolerance false 7 a1 a2).1 false false false 3 6 7
      r3 r6 r7⟩

end ZeroThree
